import Mathlib

/-!
Shallow embedding of the regex engine of src/src/ast.rs (a Brzozowski-derivative
matcher with set operators and a decimal-remainder predicate), together with
theorems settling the specification claims.

Modelling conventions:
* Rust u32 values are Nat; arithmetic that can overflow is taken modulo 2 ^ 32
  (release-profile wrapping semantics).  A u32 remainder operation with a zero
  divisor aborts in every Rust profile, so `derivative` returns an Option and
  yields none exactly on that abort path.
* Rust strings are lists of characters (the code iterates with s.chars()).
* f32 values reaching scale_divisor are modelled by their canonical textual
  representation, with NaN and the infinities kept apart (see F32Repr below).
-/

set_option autoImplicit false
set_option maxRecDepth 100000

/-- Tree of regex variants, after the Rust enum Regex of src/src/ast.rs
(Vec of subtrees becomes List, u32 payloads become Nat). -/
inductive Regex where
  | Empty : Regex
  | Epsilon : Regex
  | Literal (c : Char) : Regex
  | Concat (rxs : List Regex) : Regex
  | Or (rxs : List Regex) : Regex
  | And (rxs : List Regex) : Regex
  | Not (r : Regex) : Regex
  | Star (r : Regex) : Regex
  | Remainder (divisor current_remainder target_remainder scale : Nat)
      (fractional_mode : Bool) : Regex
deriving Repr

/-- Rust's char::to_digit(10): some digit for an ascii decimal digit, else none. -/
def toDigit? (c : Char) : Option Nat :=
  if '0' ≤ c ∧ c ≤ '9' then some (c.toNat - '0'.toNat) else none

/-- Rust's 10_u32.pow(e) with release (wrapping) semantics. -/
def pow10 (e : Nat) : Nat := 10 ^ e % 2 ^ 32

mutual

/-- Nullability oracle, after Regex::nullable: does the tree accept the empty
string?  The Concat/And cases fold all, the Or case folds any. -/
def Regex.nullable : Regex → Bool
  | .Empty => false
  | .Epsilon => true
  | .Literal _ => false
  | .Concat rxs => Regex.allNullable rxs
  | .Or rxs => Regex.anyNullable rxs
  | .And rxs => Regex.allNullable rxs
  | .Not r => !r.nullable
  | .Star _ => true
  | .Remainder _ cur targ _ _ => decide (cur = targ)

/-- Conjunction of nullable over a list (rxs.iter().all in the source). -/
def Regex.allNullable : List Regex → Bool
  | [] => true
  | r :: rs => r.nullable && Regex.allNullable rs

/-- Disjunction of nullable over a list (rxs.iter().any in the source). -/
def Regex.anyNullable : List Regex → Bool
  | [] => false
  | r :: rs => r.nullable || Regex.anyNullable rs

end

/-- Null projection, after Regex::null: Epsilon when nullable, else Empty. -/
def Regex.null (r : Regex) : Regex :=
  if r.nullable then .Epsilon else .Empty

mutual

/-- Brzozowski derivative, after Regex::derivative.  Returns none exactly when
the Rust code aborts: a Remainder digit step whose divisor is zero reaches a
u32 remainder by zero.  All other u32 arithmetic is wrapping (mod 2 ^ 32). -/
def Regex.derivative : Regex → Char → Option Regex
  | .Empty, _ => some .Empty
  | .Epsilon, _ => some .Empty
  | .Literal ch, c => some (if ch = c then .Epsilon else .Empty)
  | .Concat rxs, c => Regex.derivConcat .Empty .Epsilon rxs c
  | .Or rxs, c => (Regex.derivList rxs c).map .Or
  | .And rxs, c => (Regex.derivList rxs c).map .And
  | .Not r, c => (r.derivative c).map .Not
  | .Star r, c => (r.derivative c).map (fun d => .Concat [d, .Star r])
  | .Remainder divisor cur targ scale fm, c =>
      if fm = false ∧ c = '.' then
        some (.Remainder divisor cur targ scale true)
      else
        match toDigit? c with
        | some digit =>
            if fm = true ∧ scale = 0 then some .Empty
            else if divisor = 0 then none
            else
              some (.Remainder divisor
                ((if fm = false then cur * 10 + digit * pow10 scale
                  else cur + digit * pow10 (scale - 1)) % 2 ^ 32 % divisor)
                targ
                (if fm = true then scale - 1 else scale) fm)
        | none => some .Empty

/-- Left fold of the Concat derivative loop of Regex::derivative: dr is
deriv_so_far, vr is null_so_far; each element wraps them exactly as the
deriv_concat helper of the source does. -/
def Regex.derivConcat : Regex → Regex → List Regex → Char → Option Regex
  | dr, _, [], _ => some dr
  | dr, vr, s :: rest, c =>
      (s.derivative c).bind fun ds =>
        Regex.derivConcat (.Or [.Concat [dr, s], .Concat [vr, ds]])
          (.Concat [vr, s.null]) rest c

/-- Elementwise derivative of a list of subtrees (the map in the Or/And cases). -/
def Regex.derivList : List Regex → Char → Option (List Regex)
  | [], _ => some []
  | r :: rs, c =>
      (r.derivative c).bind fun d => (Regex.derivList rs c).map fun ds => d :: ds

end

/-- Matching driver, after Regex::matches: step the tree through the derivative
for every character in order, then decide nullability.  none records the abort
of a derivative step. -/
def Regex.matches : Regex → List Char → Option Bool
  | r, [] => some r.nullable
  | r, c :: cs =>
      match r.derivative c with
      | some r' => r'.matches cs
      | none => none

/-- Bounded repetition, after Regex::repeat: low mandatory copies, then either
high - low optional copies Or [Epsilon, r], or a Star tail when high is none. -/
def Regex.repeat (r : Regex) (low : Nat) (high : Option Nat) : Regex :=
  .Concat (List.replicate low r ++
    match high with
    | some h => List.replicate (h - low) (.Or [.Epsilon, r])
    | none => [.Star r])

/-- Literal-string combinator, after Regex::literal: one Literal per character. -/
def Regex.literal (s : List Char) : Regex :=
  .Concat (s.map .Literal)

/-- Integer remainder combinator, after Regex::remainder. -/
def Regex.remainder (divisor target : Nat) : Regex :=
  .Remainder divisor 0 target 0 false

/-- An f32 value as scale_divisor observes it through fract() and to_string():
a finite nonnegative value is its canonical decimal text, an integer part and
the list of fractional digits after the decimal point (empty exactly when
fract() == 0.0, since Rust prints integral floats without a decimal point);
nanOrInf covers NaN and the infinities, whose fract() is NaN — which compares
unequal to 0.0 — while their textual representation ("NaN", "inf", "-inf")
contains no decimal point.  Exact decimal arithmetic on this representation
stands in for the f32 arithmetic of scale_divisor. -/
inductive F32Repr where
  | finite (intPart : Nat) (fracDigits : List Nat) : F32Repr
  | nanOrInf : F32Repr
deriving Repr

/-- Value of a most-significant-first decimal digit list. -/
def decVal (gs : List Nat) : Nat := gs.foldl (fun a g => a * 10 + g) 0

/-- Divisor-scaling utility, after scale_divisor of src/src/ast.rs, on the
canonical representation.  A value with fract() == 0.0 passes through with
scale 0 (the as-u32 cast saturates at u32::MAX).  Every other value takes the
else branch, which splits the textual representation at the decimal point:
for NaN and the infinities there is none, so the split yields nothing and the
ok_or of the source returns the NoDecimalPart error; for a non-integral finite
value the scale is the number of fractional digits, the value is scaled by
10 ^ scale (modelled exactly), and an overflow of u32::MAX is rejected. -/
def scale_divisor (x : F32Repr) : Except String (Nat × Nat) :=
  match x with
  | .finite intPart [] => .ok (min intPart (2 ^ 32 - 1), 0)
  | .finite intPart (g :: gs) =>
      let scale := (g :: gs).length
      let scaled := intPart * 10 ^ scale + decVal (g :: gs)
      if scaled > 2 ^ 32 - 1 then .error "Scaled divisor exceeds u32::MAX"
      else .ok (scaled, scale)
  | .nanOrInf => .error "No decimal part found"

/-- Fractional remainder combinator, after Regex::fractional_remainder: scale
the divisor, then build the Remainder node with the resulting scale budget. -/
def Regex.fractional_remainder (divisor : F32Repr) (target : Nat) :
    Except String Regex :=
  (scale_divisor divisor).map fun p =>
    .Remainder p.1 0 target p.2 false

mutual

/-- Modelled from the spec: the emptiness oracle isEmptyLanguage of spec
section 4.3 is absent from src/src/ast.rs (no such function exists in the
repository); this definition follows the spec's words: Empty is empty, Epsilon
and Literal are not, Concat/And are empty iff any element is, Or iff all
elements are, Not r iff r is not empty, Star and Remainder never. -/
def Regex.isEmptyLanguage : Regex → Bool
  | .Empty => true
  | .Epsilon => false
  | .Literal _ => false
  | .Concat rxs => Regex.anyEmpty rxs
  | .Or rxs => Regex.allEmpty rxs
  | .And rxs => Regex.anyEmpty rxs
  | .Not r => !r.isEmptyLanguage
  | .Star _ => false
  | .Remainder _ _ _ _ _ => false

/-- Modelled from the spec: disjunction of isEmptyLanguage over a list. -/
def Regex.anyEmpty : List Regex → Bool
  | [] => false
  | r :: rs => r.isEmptyLanguage || Regex.anyEmpty rs

/-- Modelled from the spec: conjunction of isEmptyLanguage over a list. -/
def Regex.allEmpty : List Regex → Bool
  | [] => true
  | r :: rs => r.isEmptyLanguage && Regex.allEmpty rs

end

/-- Modelled from the spec: the matching driver as spec section 4.5 describes
it, checking isEmptyLanguage before every derivative step and returning false
immediately when the oracle holds. -/
def Regex.matchesSpecDriver : Regex → List Char → Option Bool
  | r, [] => some r.nullable
  | r, c :: cs =>
      if r.isEmptyLanguage then some false
      else
        match r.derivative c with
        | some r' => r'.matchesSpecDriver cs
        | none => none

mutual

/-- Divisor well-formedness: every Remainder node in the tree has a nonzero
divisor (the precondition the spec places on Remainder-producing combinators). -/
def Regex.wfDiv : Regex → Bool
  | .Empty => true
  | .Epsilon => true
  | .Literal _ => true
  | .Concat rxs => Regex.wfDivList rxs
  | .Or rxs => Regex.wfDivList rxs
  | .And rxs => Regex.wfDivList rxs
  | .Not r => r.wfDiv
  | .Star r => r.wfDiv
  | .Remainder divisor _ _ _ _ => decide (1 ≤ divisor)

/-- Divisor well-formedness of every tree in a list. -/
def Regex.wfDivList : List Regex → Bool
  | [] => true
  | r :: rs => r.wfDiv && Regex.wfDivList rs

end

/-- Decimal digits of n, most significant first, with explicit structural fuel
(sufficient whenever n ≤ fuel); mirrors the decimal rendering of u32 Display. -/
def decDigitsAux : Nat → Nat → List Nat
  | 0, n => [n % 10]
  | fuel + 1, n => if n < 10 then [n] else decDigitsAux fuel (n / 10) ++ [n % 10]

/-- Decimal digits of n, most significant first ([0] for n = 0, as Rust's
to_string prints "0"). -/
def decDigits (n : Nat) : List Nat := decDigitsAux n n

/-- Decimal string of n, as Rust's i.to_string() produces for a u32. -/
def decString (n : Nat) : List Char := (decDigits n).map Nat.digitChar

/-! ### Helper lemmas -/

/-- The null projection always has well-formed divisors (it is Epsilon or Empty). -/
theorem Regex.null_wfDiv (r : Regex) : r.null.wfDiv = true := by
  unfold Regex.null
  split <;> rfl

/-! ### Claim C10: empty Or rejects everything, empty And accepts everything -/

/-- Claim C10: for every string s, matches(Or([]), s) is false and
matches(And([]), s) is true — the empty union is the empty language, the empty
intersection is the universal language. -/
theorem claim_C10 (s : List Char) :
    Regex.matches (.Or []) s = some false ∧
    Regex.matches (.And []) s = some true := by
  induction s with
  | nil => exact ⟨rfl, rfl⟩
  | cons c cs ih =>
      refine ⟨?_, ?_⟩
      · have h : Regex.derivative (.Or []) c = some (.Or []) := rfl
        simp [Regex.matches, h, ih.1]
      · have h : Regex.derivative (.And []) c = some (.And []) := rfl
        simp [Regex.matches, h, ih.2]

/-! ### Claim C9: empty string and lone decimal point act as the numeral zero -/

/-- Claim C9: for every divisor d ≥ 1 and target t, the remainder combinator
accepts the empty string, and the one-character string ".", exactly when the
target is zero. -/
theorem claim_C9 (d t : Nat) (_hd : 1 ≤ d) :
    (Regex.matches (Regex.remainder d t) [] = some true ↔ t = 0) ∧
    (Regex.matches (Regex.remainder d t) ['.'] = some true ↔ t = 0) := by
  have hstep : Regex.derivative (Regex.remainder d t) '.' =
      some (.Remainder d 0 t 0 true) := rfl
  constructor
  · show some (Regex.nullable (.Remainder d 0 t 0 false)) = some true ↔ t = 0
    simp [Regex.nullable, eq_comm]
  · show Regex.matches (Regex.remainder d t) ['.'] = some true ↔ t = 0
    simp [Regex.matches, hstep, Regex.nullable, eq_comm]

/-- Concrete instantiation of claim_C9 at d = 5, t = 0. -/
theorem claim_C9_witness :
    (Regex.matches (Regex.remainder 5 0) [] = some true ↔ (0 : Nat) = 0) ∧
    (Regex.matches (Regex.remainder 5 0) ['.'] = some true ↔ (0 : Nat) = 0) :=
  claim_C9 5 0 (by decide)

/-! ### Claim C7: Remainder derivative on the decimal point and on junk -/

/-- Claim C7: on '.', a non-fractional Remainder flips fractional_mode and
changes nothing else; on '.', an already fractional Remainder steps to Empty;
on any character that is neither '.' nor a decimal digit, every Remainder
steps to Empty. -/
theorem claim_C7 (dv cur targ scale : Nat) (fm : Bool) (c : Char)
    (hc : toDigit? c = none) :
    Regex.derivative (.Remainder dv cur targ scale false) '.' =
      some (.Remainder dv cur targ scale true) ∧
    Regex.derivative (.Remainder dv cur targ scale true) '.' = some .Empty ∧
    (c ≠ '.' → Regex.derivative (.Remainder dv cur targ scale fm) c = some .Empty) := by
  refine ⟨rfl, rfl, fun hne => ?_⟩
  cases fm <;> simp [Regex.derivative, hc, hne]

/-- Concrete instantiation of claim_C7 with the non-digit character 'x'. -/
theorem claim_C7_witness :
    Regex.derivative (.Remainder 3 1 0 2 false) '.' =
      some (.Remainder 3 1 0 2 true) ∧
    Regex.derivative (.Remainder 3 1 0 2 true) '.' = some .Empty ∧
    ('x' ≠ '.' → Regex.derivative (.Remainder 3 1 0 2 true) 'x' = some .Empty) :=
  claim_C7 3 1 0 2 true 'x' (by decide)

/-! ### Claim C4: the matching driver has no emptiness short-circuit -/

/-- Counterexample to claim C4: on the tree Not(Star(Literal 'a')) the spec's
emptiness oracle holds, so a driver that consults it would reject every
nonempty string, yet the code accepts "b"; the driver spelled out by the spec
(matchesSpecDriver) indeed disagrees with the code on this input. -/
theorem claim_C4_counterexample :
    Regex.isEmptyLanguage (.Not (.Star (.Literal 'a'))) = true ∧
    Regex.matches (.Not (.Star (.Literal 'a'))) ['b'] = some true ∧
    Regex.matchesSpecDriver (.Not (.Star (.Literal 'a'))) ['b'] = some false := by
  exact ⟨rfl, by decide, by decide⟩

/-- Claim C4 as amended: the matching driver is a single left-to-right pass
with no emptiness check at all — it folds the derivative over the characters
and applies the nullability oracle to the final tree. -/
theorem claim_C4_amended (r : Regex) (s : List Char) :
    Regex.matches r s =
      (List.foldlM Regex.derivative r s).map Regex.nullable := by
  induction s generalizing r with
  | nil => rfl
  | cons c cs ih =>
      cases h : r.derivative c with
      | none => simp [Regex.matches, h]
      | some r' => simp [Regex.matches, h, ih]

/-! ### Claim C8: bounded and unbounded repetition of a literal -/

/-- Claim C8: repeat(Literal 'a', 2, Some 4) rejects "a", accepts "aa", "aaa",
"aaaa", rejects "aaaaa"; repeat(Literal 'a', 2, None) accepts "aaaaa". -/
theorem claim_C8 :
    Regex.matches (Regex.repeat (.Literal 'a') 2 (some 4)) ['a'] = some false ∧
    Regex.matches (Regex.repeat (.Literal 'a') 2 (some 4)) ['a', 'a'] = some true ∧
    Regex.matches (Regex.repeat (.Literal 'a') 2 (some 4)) ['a', 'a', 'a'] = some true ∧
    Regex.matches (Regex.repeat (.Literal 'a') 2 (some 4)) ['a', 'a', 'a', 'a'] = some true ∧
    Regex.matches (Regex.repeat (.Literal 'a') 2 (some 4)) ['a', 'a', 'a', 'a', 'a'] = some false ∧
    Regex.matches (Regex.repeat (.Literal 'a') 2 none) ['a', 'a', 'a', 'a', 'a'] = some true := by
  refine ⟨?_, ?_, ?_, ?_, ?_, ?_⟩ <;> decide

/-! ### Claim C3: scale_divisor has no decimal-place-count check -/

/-- Counterexample to claim C3: the canonical representation 0.0000000001 has
10 fractional digits, yet scale_divisor succeeds with (1, 10) instead of
failing with TooManyDecimalPlaces — no such check or error exists in the code. -/
theorem claim_C3_counterexample :
    ([0, 0, 0, 0, 0, 0, 0, 0, 0, 1] : List Nat).length = 10 ∧
    scale_divisor (.finite 0 [0, 0, 0, 0, 0, 0, 0, 0, 0, 1]) = .ok (1, 10) :=
  ⟨rfl, rfl⟩

/-- Claim C3 as amended: scale_divisor never counts decimal places and has no
TooManyDecimalPlaces error; for any number p of fractional digits it proceeds
to scale by 10 ^ p, and the only errors it can return are NoDecimalPart (for
NaN or infinite inputs, whose fract() is nonzero while their textual
representation has no decimal point) and the u32 overflow of the scaled
divisor. -/
theorem claim_C3_amended (x : F32Repr) (e : String)
    (h : scale_divisor x = .error e) :
    e = "No decimal part found" ∨ e = "Scaled divisor exceeds u32::MAX" := by
  cases x with
  | nanOrInf =>
      injection h with h2
      exact Or.inl h2.symm
  | finite intPart ds =>
      cases ds with
      | nil => cases h
      | cons g gs =>
          unfold scale_divisor at h
          dsimp only at h
          split at h
          · injection h with h2
            exact Or.inr h2.symm
          · cases h

/-- Concrete instantiation of claim_C3_amended at an overflowing finite input. -/
theorem claim_C3_witness :
    scale_divisor (.finite (2 ^ 32) [5]) = .error "Scaled divisor exceeds u32::MAX" ∧
    ("Scaled divisor exceeds u32::MAX" = "No decimal part found" ∨
      "Scaled divisor exceeds u32::MAX" = "Scaled divisor exceeds u32::MAX") := by
  have h : scale_divisor (.finite (2 ^ 32) [5]) =
      .error "Scaled divisor exceeds u32::MAX" := rfl
  exact ⟨h, claim_C3_amended (.finite (2 ^ 32) [5])
    "Scaled divisor exceeds u32::MAX" h⟩

/-! ### Claim C5: invariants of the Remainder derivative -/

/-- Claim C5: from a Remainder node with divisor ≥ 1 and
current_remainder < divisor, one derivative step yields Empty or a Remainder
node with the same divisor and target whose current_remainder is again below
the divisor; fractional_mode never reverts from true to false, and the scale
is unchanged unless fractional_mode was true, in which case it decreases by
exactly one from a positive value (a fractional digit at scale zero yields
Empty instead). -/
theorem claim_C5 (dv cur targ scale : Nat) (fm : Bool) (c : Char)
    (h1 : 1 ≤ dv) (h2 : cur < dv) :
    ∃ res, Regex.derivative (.Remainder dv cur targ scale fm) c = some res ∧
      (res = .Empty ∨
        ∃ cur' scale' fm', res = .Remainder dv cur' targ scale' fm' ∧
          cur' < dv ∧ (fm = true → fm' = true) ∧
          (if fm = true then scale' + 1 = scale ∧ 1 ≤ scale
           else scale' = scale)) := by
  by_cases hdot : fm = false ∧ c = '.'
  · obtain ⟨hf, hc⟩ := hdot
    subst hf; subst hc
    refine ⟨.Remainder dv cur targ scale true, rfl, Or.inr ?_⟩
    exact ⟨cur, scale, true, rfl, h2, by simp, rfl⟩
  · cases htd : toDigit? c with
    | none =>
        refine ⟨.Empty, ?_, Or.inl rfl⟩
        simp [Regex.derivative, hdot, htd]
    | some digit =>
        by_cases hfs : fm = true ∧ scale = 0
        · refine ⟨.Empty, ?_, Or.inl rfl⟩
          simp [Regex.derivative, hdot, htd, hfs]
        · have hdv : ¬ dv = 0 := by omega
          cases fm with
          | false =>
              have hne : ¬ c = '.' := fun hc => hdot ⟨rfl, hc⟩
              refine ⟨.Remainder dv ((cur * 10 + digit * pow10 scale) % 2 ^ 32 % dv)
                  targ scale false, ?_, Or.inr ?_⟩
              · simp [Regex.derivative, hne, htd, hfs, hdv]
              · exact ⟨_, scale, false, rfl, Nat.mod_lt _ (by omega), by simp, rfl⟩
          | true =>
              have hsc : 1 ≤ scale := by
                rcases Nat.eq_zero_or_pos scale with h | h
                · exact absurd ⟨rfl, h⟩ hfs
                · exact h
              have hs0 : ¬ scale = 0 := by omega
              refine ⟨.Remainder dv ((cur + digit * pow10 (scale - 1)) % 2 ^ 32 % dv)
                  targ (scale - 1) true, ?_, Or.inr ?_⟩
              · simp [Regex.derivative, htd, hs0, hdv]
              · refine ⟨_, scale - 1, true, rfl, Nat.mod_lt _ (by omega), by simp, ?_⟩
                simp
                omega

/-- Concrete instantiation of claim_C5 in fractional mode on the digit 7. -/
theorem claim_C5_witness :
    ∃ res, Regex.derivative (.Remainder 3 1 0 2 true) '7' = some res ∧
      (res = .Empty ∨
        ∃ cur' scale' fm', res = .Remainder 3 cur' 0 scale' fm' ∧
          cur' < 3 ∧ (true = true → fm' = true) ∧
          (if true = true then scale' + 1 = 2 ∧ 1 ≤ 2
           else scale' = 2)) :=
  claim_C5 3 1 0 2 true '7' (by decide) (by decide)

/-! ### Claim C6: De Morgan consistency of Not over Or under matching -/

/-- Claim C6: for every pair of trees and every string, matching the
complement of the union gives exactly the negation of the disjunction of the
two matches (and aborts exactly when one of them aborts). -/
theorem claim_C6 (a b : Regex) (s : List Char) :
    Regex.matches (.Not (.Or [a, b])) s =
      (Regex.matches a s).bind fun x =>
        (Regex.matches b s).map fun y => !(x || y) := by
  induction s generalizing a b with
  | nil =>
      show some (Regex.nullable (.Not (.Or [a, b]))) = _
      simp [Regex.matches, Regex.nullable, Regex.anyNullable]
  | cons c cs ih =>
      cases hda : a.derivative c with
      | none =>
          have h : Regex.derivative (.Not (.Or [a, b])) c = none := by
            simp [Regex.derivative, Regex.derivList, hda]
          simp [Regex.matches, h, hda]
      | some da =>
          cases hdb : b.derivative c with
          | none =>
              have h : Regex.derivative (.Not (.Or [a, b])) c = none := by
                simp [Regex.derivative, Regex.derivList, hda, hdb]
              simp [Regex.matches, h, hda, hdb]
          | some db =>
              have h : Regex.derivative (.Not (.Or [a, b])) c =
                  some (.Not (.Or [da, db])) := by
                simp [Regex.derivative, Regex.derivList, hda, hdb]
              simp [Regex.matches, h, hda, hdb, ih]

/-! ### Claim C2: totality of matching, and where it actually fails -/

mutual

/-- On a tree whose Remainder divisors are all nonzero, the derivative never
aborts and preserves that well-formedness. -/
theorem Regex.deriv_wfDiv : ∀ (r : Regex) (c : Char), r.wfDiv = true →
    ∃ r', r.derivative c = some r' ∧ r'.wfDiv = true
  | .Empty, _, _ => ⟨.Empty, rfl, rfl⟩
  | .Epsilon, _, _ => ⟨.Empty, rfl, rfl⟩
  | .Literal ch, c, _ => ⟨if ch = c then .Epsilon else .Empty, rfl, by split <;> rfl⟩
  | .Concat rxs, c, h =>
      Regex.derivConcat_wfDiv .Empty .Epsilon rxs c rfl rfl
        (by simpa [Regex.wfDiv] using h)
  | .Or rxs, c, h => by
      obtain ⟨rs', h1, h2⟩ :=
        Regex.derivList_wfDiv rxs c (by simpa [Regex.wfDiv] using h)
      exact ⟨.Or rs', by simp [Regex.derivative, h1], by simpa [Regex.wfDiv] using h2⟩
  | .And rxs, c, h => by
      obtain ⟨rs', h1, h2⟩ :=
        Regex.derivList_wfDiv rxs c (by simpa [Regex.wfDiv] using h)
      exact ⟨.And rs', by simp [Regex.derivative, h1], by simpa [Regex.wfDiv] using h2⟩
  | .Not r, c, h => by
      obtain ⟨d, h1, h2⟩ := Regex.deriv_wfDiv r c (by simpa [Regex.wfDiv] using h)
      exact ⟨.Not d, by simp [Regex.derivative, h1], by simpa [Regex.wfDiv] using h2⟩
  | .Star r, c, h => by
      obtain ⟨d, h1, h2⟩ := Regex.deriv_wfDiv r c (by simpa [Regex.wfDiv] using h)
      refine ⟨.Concat [d, .Star r], by simp [Regex.derivative, h1], ?_⟩
      have hr : r.wfDiv = true := by simpa [Regex.wfDiv] using h
      simp [Regex.wfDiv, Regex.wfDivList, h2, hr]
  | .Remainder dv cur targ scale fm, c, h => by
      have hdv : ¬ dv = 0 := by
        have := of_decide_eq_true (by simpa [Regex.wfDiv] using h : decide (1 ≤ dv) = true)
        omega
      by_cases hdot : fm = false ∧ c = '.'
      · obtain ⟨hf, hc⟩ := hdot
        subst hf; subst hc
        exact ⟨.Remainder dv cur targ scale true, rfl, by simpa [Regex.wfDiv] using h⟩
      · cases htd : toDigit? c with
        | none => exact ⟨.Empty, by simp [Regex.derivative, hdot, htd], rfl⟩
        | some digit =>
            by_cases hfs : fm = true ∧ scale = 0
            · exact ⟨.Empty, by simp [Regex.derivative, hdot, htd, hfs], rfl⟩
            · refine ⟨.Remainder dv
                ((if fm = false then cur * 10 + digit * pow10 scale
                  else cur + digit * pow10 (scale - 1)) % 2 ^ 32 % dv)
                targ (if fm = true then scale - 1 else scale) fm,
                ?_, by simpa [Regex.wfDiv] using h⟩
              simp [Regex.derivative, hdot, htd, hfs, hdv]

/-- Well-formedness is carried through the Concat derivative fold: with
well-formed accumulators and elements the fold never aborts and its result is
well-formed. -/
theorem Regex.derivConcat_wfDiv : ∀ (dr vr : Regex) (rxs : List Regex) (c : Char),
    dr.wfDiv = true → vr.wfDiv = true → Regex.wfDivList rxs = true →
    ∃ r', Regex.derivConcat dr vr rxs c = some r' ∧ r'.wfDiv = true
  | dr, _, [], _, hdr, _, _ => ⟨dr, rfl, hdr⟩
  | dr, vr, s :: rest, c, hdr, hvr, hl => by
      have hs : s.wfDiv = true := by
        have := hl
        simp [Regex.wfDivList] at this
        exact this.1
      have hrest : Regex.wfDivList rest = true := by
        have := hl
        simp [Regex.wfDivList] at this
        exact this.2
      obtain ⟨ds, h1, h2⟩ := Regex.deriv_wfDiv s c hs
      obtain ⟨r', h3, h4⟩ := Regex.derivConcat_wfDiv
        (.Or [.Concat [dr, s], .Concat [vr, ds]]) (.Concat [vr, s.null]) rest c
        (by simp [Regex.wfDiv, Regex.wfDivList, hdr, hs, hvr, h2])
        (by simp [Regex.wfDiv, Regex.wfDivList, hvr, Regex.null_wfDiv])
        hrest
      exact ⟨r', by simp [Regex.derivConcat, h1, h3], h4⟩

/-- Elementwise derivatives of a well-formed list never abort and stay
well-formed. -/
theorem Regex.derivList_wfDiv : ∀ (rxs : List Regex) (c : Char),
    Regex.wfDivList rxs = true →
    ∃ rs', Regex.derivList rxs c = some rs' ∧ Regex.wfDivList rs' = true
  | [], _, _ => ⟨[], rfl, rfl⟩
  | r :: rs, c, h => by
      have hr : r.wfDiv = true := by
        have := h
        simp [Regex.wfDivList] at this
        exact this.1
      have hrs : Regex.wfDivList rs = true := by
        have := h
        simp [Regex.wfDivList] at this
        exact this.2
      obtain ⟨d, h1, h2⟩ := Regex.deriv_wfDiv r c hr
      obtain ⟨ds, h3, h4⟩ := Regex.derivList_wfDiv rs c hrs
      exact ⟨d :: ds, by simp [Regex.derivList, h1, h3],
        by simp [Regex.wfDivList, h2, h4]⟩

end

/-- Counterexample to claim C2: a Remainder node with divisor 0 — as the
public remainder(0, 0) combinator builds it — aborts on its first digit (the
Rust code computes a u32 remainder by zero), so matches does not return a
boolean for every tree. -/
theorem claim_C2_counterexample :
    Regex.matches (Regex.remainder 0 0) ['0'] = none := by decide

/-- Claim C2 as amended: for every tree all of whose Remainder nodes carry a
divisor ≥ 1 (the spec's own combinator precondition), matching is total: every
derivative step produces a well-formed tree and matches returns a boolean. -/
theorem claim_C2_amended (r : Regex) (s : List Char) (h : r.wfDiv = true) :
    ∃ b, Regex.matches r s = some b := by
  induction s generalizing r with
  | nil => exact ⟨r.nullable, rfl⟩
  | cons c cs ih =>
      obtain ⟨r', h1, h2⟩ := Regex.deriv_wfDiv r c h
      obtain ⟨b, hb⟩ := ih r' h2
      exact ⟨b, by simp [Regex.matches, h1, hb]⟩

/-- Concrete instantiation of claim_C2_amended on a mixed tree. -/
theorem claim_C2_witness :
    ∃ b, Regex.matches (.And [.Not (.Literal 'a'), Regex.remainder 7 3,
      .Star (.Literal '1')]) ['1', '4'] = some b :=
  claim_C2_amended _ _ (by decide)

/-! ### Claim C1: remainder(d, r) recognizes exactly the residue class -/

/-- Every entry produced by the fueled digit expansion is a decimal digit. -/
theorem decDigitsAux_lt_ten : ∀ (fuel n g : Nat), g ∈ decDigitsAux fuel n → g < 10
  | 0, n, g, h => by
      simp [decDigitsAux] at h
      omega
  | fuel + 1, n, g, h => by
      by_cases hn : n < 10
      · simp [decDigitsAux, hn] at h
        omega
      · simp [decDigitsAux, hn] at h
        rcases h with h | h
        · exact decDigitsAux_lt_ten fuel (n / 10) g h
        · omega

/-- Appending a final digit multiplies the value by ten and adds the digit. -/
theorem decVal_append (l : List Nat) (d : Nat) :
    decVal (l ++ [d]) = decVal l * 10 + d := by
  simp [decVal, List.foldl_append]

/-- With enough fuel the digit expansion evaluates back to its input. -/
theorem decVal_decDigitsAux : ∀ (fuel n : Nat), n ≤ fuel →
    decVal (decDigitsAux fuel n) = n
  | 0, n, h => by
      have : n = 0 := by omega
      subst this
      rfl
  | fuel + 1, n, h => by
      by_cases hn : n < 10
      · simp [decDigitsAux, hn, decVal]
      · have hrec : decVal (decDigitsAux fuel (n / 10)) = n / 10 :=
          decVal_decDigitsAux fuel (n / 10) (by omega)
        simp [decDigitsAux, hn, decVal_append, hrec]
        omega

/-- Value of the decimal digits of n. -/
theorem decVal_decDigits (n : Nat) : decVal (decDigits n) = n :=
  decVal_decDigitsAux n n (Nat.le_refl n)

/-- The decimal digits of n are digits. -/
theorem decDigits_lt_ten (n g : Nat) (h : g ∈ decDigits n) : g < 10 :=
  decDigitsAux_lt_ten n n g h

/-- For an actual digit, Nat.digitChar is an ascii decimal digit character
distinct from the decimal point, and toDigit? recovers the digit. -/
theorem toDigit?_digitChar (g : Nat) (h : g < 10) :
    toDigit? (Nat.digitChar g) = some g ∧ Nat.digitChar g ≠ '.' := by
  interval_cases g <;> exact ⟨by decide, by decide⟩

/-- Folding the mod-step over a digit list commutes with a final reduction. -/
theorem foldl_mod (d : Nat) : ∀ (gs : List Nat) (a : Nat),
    List.foldl (fun x g => (x * 10 + g) % d) (a % d) gs =
      List.foldl (fun x g => x * 10 + g) a gs % d
  | [], _ => rfl
  | g :: gs, a => by
      have h : (a % d * 10 + g) % d = (a * 10 + g) % d := by
        rw [Nat.add_mod, Nat.mod_mul_mod, ← Nat.add_mod]
      calc List.foldl (fun x g => (x * 10 + g) % d) (a % d) (g :: gs)
          = List.foldl (fun x g => (x * 10 + g) % d) ((a % d * 10 + g) % d) gs := rfl
        _ = List.foldl (fun x g => (x * 10 + g) % d) ((a * 10 + g) % d) gs := by rw [h]
        _ = List.foldl (fun x g => x * 10 + g) (a * 10 + g) gs % d :=
            foldl_mod d gs (a * 10 + g)

/-- Stepping an integer-mode Remainder node through a digit string performs
exactly the rolling mod-divisor computation of the source: the 2 ^ 32 wrap is
invisible because current_remainder stays below the (small) divisor. -/
theorem matches_remainder_digits : ∀ (gs : List Nat) (dv cur targ : Nat),
    0 < dv → dv ≤ 27 → cur < dv → (∀ g ∈ gs, g < 10) →
    Regex.matches (.Remainder dv cur targ 0 false) (gs.map Nat.digitChar) =
      some (decide (List.foldl (fun a g => (a * 10 + g) % dv) cur gs = targ))
  | [], dv, cur, targ, h1, h2, h3, h4 => rfl
  | g :: gs, dv, cur, targ, h1, h2, h3, h4 => by
      have hg : g < 10 := h4 g (by simp)
      obtain ⟨htd, hne⟩ := toDigit?_digitChar g hg
      have hdv : ¬ dv = 0 := by omega
      have hpow : pow10 0 = 1 := rfl
      have hwrap : (cur * 10 + g * pow10 0) % 4294967296 = cur * 10 + g := by
        rw [hpow]
        rw [Nat.mod_eq_of_lt (by omega)]
        omega
      have hder : Regex.derivative (.Remainder dv cur targ 0 false)
          (Nat.digitChar g) =
          some (.Remainder dv ((cur * 10 + g) % dv) targ 0 false) := by
        simp [Regex.derivative, hne, htd, hdv, hwrap]
      have hrec := matches_remainder_digits gs dv ((cur * 10 + g) % dv) targ
        h1 h2 (Nat.mod_lt _ h1) (fun x hx => h4 x (by simp [hx]))
      simp [Regex.matches, hder, hrec]

/-- Claim C1: for every divisor d in [1, 27], target remainder r in [0, d) and
integer i in [0, 1000), matching remainder(d, r) against the decimal string of
i succeeds exactly when i mod d equals r. -/
theorem claim_C1 (d r i : Nat) (hd1 : 1 ≤ d) (hd2 : d ≤ 27) (_hr : r < d)
    (_hi : i < 1000) :
    Regex.matches (Regex.remainder d r) (decString i) = some (decide (i % d = r)) := by
  have hmain := matches_remainder_digits (decDigits i) d 0 r
    (by omega) hd2 (by omega) (decDigits_lt_ten i)
  have hfold : List.foldl (fun a g => (a * 10 + g) % d) 0 (decDigits i) = i % d := by
    have h0 : (0 : Nat) = 0 % d := (Nat.zero_mod d).symm
    calc List.foldl (fun a g => (a * 10 + g) % d) 0 (decDigits i)
        = List.foldl (fun a g => (a * 10 + g) % d) (0 % d) (decDigits i) := by
          rw [← h0]
      _ = List.foldl (fun a g => a * 10 + g) 0 (decDigits i) % d := foldl_mod d _ 0
      _ = decVal (decDigits i) % d := rfl
      _ = i % d := by rw [decVal_decDigits]
  have hcomb : Regex.remainder d r = .Remainder d 0 r 0 false := rfl
  rw [show decString i = (decDigits i).map Nat.digitChar from rfl, hcomb, hmain, hfold]

/-- Concrete instantiation of claim_C1 at d = 7, r = 3, i = 24. -/
theorem claim_C1_witness :
    Regex.matches (Regex.remainder 7 3) (decString 24) = some (decide (24 % 7 = 3)) :=
  claim_C1 7 3 24 (by decide) (by decide) (by decide) (by decide)
